import Mathlib

/-!
# Verification of the transcript acquisition pipeline

A shallow embedding of `src/scouts/transcript_scout.py` (class
`TranscriptScout`) of the trends-agent repository, together with proofs
about its behaviour.

Modelling conventions:
* Python strings are modelled as `List Char`; Python float times as exact `Int` seconds (no claim depends on fractional time).
* The external captioning service (track listing, per-language lookup and
  cue fetch) is modelled by a `ServiceEnv` record of deterministic
  functions; raised library exceptions become an `ApiError` value.
* Stateful control flow (the retry loop of `get_transcript`) is modelled
  as a function that also returns an observable trace: the number of
  attempts made, the backoff delays slept, and the number of cue-fetch
  invocations.
-/

set_option autoImplicit false

/-! ## Basic string helpers (Python `str` operations on `List Char`) -/

/-- The charset of the regex class `[a-zA-Z0-9_-]` used by
`_extract_video_id`. -/
def charsetChar (c : Char) : Bool :=
  c.isAlpha || c.isDigit || c == '_' || c == '-'

/-- `isPrefixB p s` is Python `s.startswith(p)` (as a boolean). -/
def isPrefixB : List Char → List Char → Bool
  | [], _ => true
  | _ :: _, [] => false
  | a :: as, b :: bs => a == b && isPrefixB as bs

/-- `containsSub n h` is the Python substring test `n in h`. -/
def containsSub (needle : List Char) : List Char → Bool
  | [] => isPrefixB needle []
  | b :: bs => isPrefixB needle (b :: bs) || containsSub needle bs

/-- Python `str.lower()` (ASCII behaviour). -/
def lowerStr (s : List Char) : List Char := s.map Char.toLower

/-- Python `str.strip()`: remove leading and trailing whitespace. -/
def pyStrip (s : List Char) : List Char :=
  ((s.dropWhile Char.isWhitespace).reverse.dropWhile Char.isWhitespace).reverse

/-- Worker for `collapseWs`; the flag records whether the previous
character was whitespace (so a whitespace run emits one space). -/
def collapseWsAux : List Char → Bool → List Char
  | [], _ => []
  | c :: rest, prevWs =>
    if c.isWhitespace then
      if prevWs then collapseWsAux rest true
      else ' ' :: collapseWsAux rest true
    else c :: collapseWsAux rest false

/-- Python `re.sub(r'\s+', ' ', s)`: collapse whitespace runs to one
space. -/
def collapseWs (s : List Char) : List Char := collapseWsAux s false

/-- Find the text after the next `]` provided no newline comes first
(the regex `\[.*?\]` cannot match across a newline). -/
def findClose : List Char → Option (List Char)
  | [] => none
  | c :: rest =>
    if c = ']' then some rest
    else if c = '\n' then none
    else findClose rest

/-- Worker for `removeBrackets`, structurally recursive on a fuel that
bounds the input length. -/
def removeBracketsFuel : Nat → List Char → List Char
  | 0, rest => rest
  | _ + 1, [] => []
  | fuel + 1, c :: rest =>
    if c = '[' then
      match findClose rest with
      | some rem => removeBracketsFuel fuel rem
      | none => c :: removeBracketsFuel fuel rest
    else c :: removeBracketsFuel fuel rest

/-- Python `re.sub(r'\[.*?\]', '', s)`: drop each shortest bracketed
span (an unclosed `[` is kept). -/
def removeBrackets (s : List Char) : List Char :=
  removeBracketsFuel s.length s

/-- Worker for `pySplit`; `acc` holds the current token reversed. -/
def pySplitAux : List Char → List Char → List (List Char)
  | [], acc => if acc = [] then [] else [acc.reverse]
  | c :: rest, acc =>
    if c.isWhitespace then
      if acc = [] then pySplitAux rest []
      else acc.reverse :: pySplitAux rest []
    else pySplitAux rest (c :: acc)

/-- Python `str.split()` with no argument: whitespace-delimited tokens,
no empty tokens. -/
def pySplit (s : List Char) : List (List Char) := pySplitAux s []

/-- Split at the first occurrence of `ch`, returning the parts before
and after it, or `none` when `ch` does not occur. -/
def splitFirst (ch : Char) : List Char → Option (List Char × List Char)
  | [] => none
  | c :: rest =>
    if c = ch then some ([], rest)
    else
      match splitFirst ch rest with
      | some (l, r) => some (c :: l, r)
      | none => none

/-- Worker for `splitAll`. -/
def splitAllAux (ch : Char) : List Char → List Char → List (List Char)
  | [], acc => [acc.reverse]
  | c :: rest, acc =>
    if c = ch then acc.reverse :: splitAllAux ch rest []
    else splitAllAux ch rest (c :: acc)

/-- Python `s.split(ch)`: split at every occurrence of `ch`. -/
def splitAll (ch : Char) (s : List Char) : List (List Char) :=
  splitAllAux ch s []

/-- The characters after the last `@` (the whole string when there is
no `@`), as used by hostname extraction. -/
def afterLastAt (s : List Char) : List Char :=
  (s.reverse.takeWhile (fun c => c ≠ '@')).reverse

/-! ## Transcript-potential scorer (`has_good_transcript_potential`) -/

/-- The video-metadata fields read by the scorer. -/
structure VideoData where
  title : List Char
  category_name : List Char
  duration_seconds : Int
  deriving DecidableEq

/-- Categories with good transcript rates (source list, verbatim). -/
def highCats : List (List Char) :=
  ["news", "education", "science", "technology", "people", "blogs",
   "comedy", "entertainment", "howto", "style"].map String.data

/-- Categories with poor transcript rates (source list, verbatim). -/
def lowCats : List (List Char) :=
  ["music", "gaming", "sports", "film", "animation"].map String.data

/-- Title indicators for speech content (source list, verbatim). -/
def speechInd : List (List Char) :=
  ["interview", "explains", "talks", "discusses", "review", "tutorial",
   "guide", "news", "podcast", "commentary", "analysis", "breakdown",
   "reaction", "story", "documentary", "vlog", "q&a"].map String.data

/-- Title indicators for non-speech content (source list, verbatim). -/
def nonSpeechInd : List (List Char) :=
  ["official music video", "lyrics", "instrumental", "soundtrack",
   "audio only", "full album", "remix", "beat", "cover", "compilation",
   "mix", "playlist", "highlights"].map String.data

/-- The score accumulation of `has_good_transcript_potential`
(lines 104-132), translated step by step: duration points, category
points (an `if`/`elif` chain), title points (two independent `if`s) and
the two special cases. -/
def potentialScore (v : VideoData) : Int :=
  let title := lowerStr v.title
  let category := lowerStr v.category_name
  let duration := v.duration_seconds
  let score : Int := 0
  let score :=
    if duration > 1800 then score + 3
    else if duration > 600 then score + 2
    else if duration > 180 then score + 1
    else if duration < 60 then score - 2
    else score
  let score :=
    if highCats.any (fun c => containsSub c category) then score + 3
    else if lowCats.any (fun c => containsSub c category) then score - 3
    else score
  let score :=
    if speechInd.any (fun c => containsSub c title) then score + 2
    else score
  let score :=
    if nonSpeechInd.any (fun c => containsSub c title) then score - 3
    else score
  let score :=
    if containsSub "live".data title || containsSub "stream".data title then score + 1
    else score
  let score :=
    if containsSub "cover".data title && containsSub "music".data category then score - 2
    else score
  score

/-- Helper for stating the category contribution of the scorer: the same
accumulation as `potentialScore` with the category step removed. -/
def nonCategoryScore (v : VideoData) : Int :=
  let title := lowerStr v.title
  let category := lowerStr v.category_name
  let duration := v.duration_seconds
  let score : Int := 0
  let score :=
    if duration > 1800 then score + 3
    else if duration > 600 then score + 2
    else if duration > 180 then score + 1
    else if duration < 60 then score - 2
    else score
  let score :=
    if speechInd.any (fun c => containsSub c title) then score + 2
    else score
  let score :=
    if nonSpeechInd.any (fun c => containsSub c title) then score - 3
    else score
  let score :=
    if containsSub "live".data title || containsSub "stream".data title then score + 1
    else score
  let score :=
    if containsSub "cover".data title && containsSub "music".data category then score - 2
    else score
  score

/-- The scorer's threshold check: the video is attempted iff the score
is at least 0. -/
def has_good_transcript_potential (v : VideoData) : Bool :=
  potentialScore v ≥ 0

/-! ## Video-ID resolver (`_extract_video_id`) -/

/-- Python `re.match(r'^[a-zA-Z0-9_-]+$', s)` as a boolean: a non-empty
run of charset characters, optionally followed by one final newline
(`$` also matches just before a trailing newline). -/
def reFullCharsetMatch (s : List Char) : Bool :=
  (!s.isEmpty && s.all charsetChar) ||
  (match s.getLast? with
   | some c => (c == '\n') && !s.dropLast.isEmpty && s.dropLast.all charsetChar
   | none => false)

/-- The group `([a-zA-Z0-9_-]{11})`: exactly the next 11 characters when
they are all in the charset. -/
def take11Charset (s : List Char) : Option (List Char) :=
  let t := s.take 11
  if t.length = 11 ∧ t.all charsetChar = true then some t else none

/-- Match a literal pattern at the front of `s`, returning the rest. -/
def stripPref : List Char → List Char → Option (List Char)
  | [], s => some s
  | _ :: _, [] => none
  | a :: as, b :: bs => if a = b then stripPref as bs else none

/-- The alternatives of the first URL regex
`(?:youtube\.com/watch\?v=|youtu\.be/|youtube\.com/embed/)`. -/
def pat1Alts : List (List Char) :=
  ["youtube.com/watch?v=", "youtu.be/", "youtube.com/embed/"].map String.data

/-- Try each alternative literal at the current position, each followed
by 11 charset characters. -/
def tryAltList : List (List Char) → List Char → Option (List Char)
  | [], _ => none
  | p :: ps, s =>
    match stripPref p s with
    | some r =>
      match take11Charset r with
      | some v => some v
      | none => tryAltList ps s
    | none => tryAltList ps s

/-- `re.search` of the first URL pattern: leftmost position where some
alternative matches. -/
def searchPat1 : List Char → Option (List Char)
  | [] => none
  | c :: rest =>
    match tryAltList pat1Alts (c :: rest) with
    | some v => some v
    | none => searchPat1 rest

/-- The tail of the second URL regex after `youtube\.com/watch\?`: the
greedy `.*v=([a-zA-Z0-9_-]{11})` takes the last `v=` before a newline
that is followed by 11 charset characters. -/
def lastVMatch : List Char → Option (List Char)
  | [] => none
  | c :: rest =>
    if c = '\n' then none
    else
      match lastVMatch rest with
      | some v => some v
      | none =>
        match stripPref ['v', '='] (c :: rest) with
        | some r => take11Charset r
        | none => none

/-- The literal head of the second URL regex. -/
def pat2Pre : List Char := "youtube.com/watch?".data

/-- `re.search` of the second URL pattern
`youtube\.com/watch\?.*v=([a-zA-Z0-9_-]{11})`. -/
def searchPat2 : List Char → Option (List Char)
  | [] => none
  | c :: rest =>
    match stripPref pat2Pre (c :: rest) with
    | some r =>
      match lastVMatch r with
      | some v => some v
      | none => searchPat2 rest
    | none => searchPat2 rest

/-- The components of `urllib.parse.urlparse` that the resolver reads. -/
structure ParsedURL where
  scheme : List Char
  netloc : List Char
  path : List Char
  query : List Char

/-- A character allowed inside a URL scheme. -/
def isSchemeChar (c : Char) : Bool :=
  c.isAlpha || c.isDigit || c == '+' || c == '-' || c == '.'

/-- Whether a candidate scheme (the text before the first `:`) is a
valid scheme: non-empty, starting with a letter, scheme characters
only. -/
def schemeOk : List Char → Bool
  | [] => false
  | c :: rest => c.isAlpha && (c :: rest).all isSchemeChar

/-- Modelled from the Python standard library `urlparse` (the library
code is not part of this repository): scheme before the first `:`,
netloc after `//` up to a `/`, `?` or `#` delimiter, then the fragment
and query split off the remainder.  Percent-escapes are not decoded
(the resolver never relies on them). -/
def pyUrlparse (url : List Char) : ParsedURL :=
  let schemeRest :=
    match splitFirst ':' url with
    | some (before, after) =>
      if schemeOk before then (lowerStr before, after) else (([] : List Char), url)
    | none => (([] : List Char), url)
  let scheme := schemeRest.1
  let rest := schemeRest.2
  let netlocRest :=
    match rest with
    | '/' :: '/' :: r =>
      let nl := r.takeWhile (fun c => ¬(c = '/' ∨ c = '?' ∨ c = '#'))
      (nl, r.drop nl.length)
    | _ => (([] : List Char), rest)
  let netloc := netlocRest.1
  let rest2 := netlocRest.2
  let rest3 :=
    match splitFirst '#' rest2 with
    | some (before, _) => before
    | none => rest2
  let pathQuery :=
    match splitFirst '?' rest3 with
    | some (b, a) => (b, a)
    | none => (rest3, ([] : List Char))
  ⟨scheme, netloc, pathQuery.1, pathQuery.2⟩

/-- Modelled from the Python standard library: `netloc → hostname`
(after the last `@`, before a port `:` or inside IPv6 brackets,
lower-cased; `None` when empty). -/
def hostnameOf (netloc : List Char) : Option (List Char) :=
  let h0 := afterLastAt netloc
  let h1 :=
    if h0.head? = some '[' then (h0.drop 1).takeWhile (fun c => c ≠ ']')
    else h0.takeWhile (fun c => c ≠ ':')
  let h := lowerStr h1
  if h = [] then none else some h

/-- Modelled from the Python standard library `parse_qs` restricted to
what the resolver uses: the first non-blank value of the key `v`
(fields split on `&`, name/value on the first `=`, blank values
skipped; percent-escapes are not decoded). -/
def parseQsV (query : List Char) : Option (List Char) :=
  ((splitAll '&' query).filterMap (fun f =>
    match splitFirst '=' f with
    | some (n, v) => if n = ['v'] ∧ v ≠ [] then some v else none
    | none => none)).head?

/-- `_extract_video_id` (lines 321-365): charset short-cut, the two URL
regexes in order, then the generic URL parse with host-specific
handling. -/
def extract_video_id (video_input : List Char) : Option (List Char) :=
  if video_input = [] then none
  else if video_input.length = 11 ∧ reFullCharsetMatch video_input = true then
    some video_input
  else
    match searchPat1 video_input with
    | some v => some v
    | none =>
      match searchPat2 video_input with
      | some v => some v
      | none =>
        let parsed := pyUrlparse video_input
        match hostnameOf parsed.netloc with
        | some h =>
          if h = "youtube.com".data ∨ h = "www.youtube.com".data then
            match parseQsV parsed.query with
            | some vq => if vq.length = 11 then some vq else none
            | none => none
          else if h = "youtu.be".data then
            let vid := parsed.path.dropWhile (fun c => c = '/')
            if vid.length = 11 then some vid else none
          else none
        | none => none

/-! ## Transcript data model -/

/-- A caption cue as fetched from the service: text with start time and
duration (times modelled as integer seconds standing in for floats). -/
structure Cue where
  text : List Char
  start : Int
  duration : Int
  deriving DecidableEq

/-- One caption track of a video's listing. -/
structure Track where
  language : List Char
  language_code : List Char
  is_generated : Bool
  is_translatable : Bool
  deriving DecidableEq

/-- The transcript record built by `_attempt_transcript_fetch` and
`get_transcript_any_language` (a Python dict; the `note` key is present
only on the any-language path). -/
structure TranscriptRecord where
  video_id : List Char
  language : List Char
  is_generated : Bool
  is_translatable : Bool
  text : List Char
  raw_data : List Cue
  word_count : Nat
  duration_covered : Int
  fetch_timestamp : Int
  note : Option (List Char)
  deriving DecidableEq

/-- The classified exceptions of the captioning library as caught by
`get_transcript` (lines 183-220). -/
inductive ApiError where
  | tooManyRequests
  | transcriptsDisabled
  | noTranscriptFound
  | videoUnavailable
  | requestFailed
  | other
  deriving DecidableEq

/-- The captioning service as seen during one call: the track listing
(or the error its retrieval raises), the per-language lookup
(`find_transcript`, which only ever returns tracks of the listing), and
the cue fetch of a track. -/
structure ServiceEnv where
  listingErr : Option ApiError
  listing : List Track
  lookup : List Char → Option Track
  lookup_mem : ∀ c t, lookup c = some t → t ∈ listing
  fetch : Track → Except ApiError (List Cue)

/-! ## Formatter and derived fields -/

/-- The fallback formatting loop of `_format_transcript`
(lines 384-394): strip each cue text, skip cues empty after stripping,
remove bracketed spans, collapse whitespace, join with single spaces. -/
def format_transcript (cues : List Cue) : List Char :=
  List.intercalate [' ']
    (cues.filterMap (fun e =>
      let t := pyStrip e.text
      if t = [] then none
      else some (collapseWs (removeBrackets t))))

/-- `_calculate_duration_covered` (lines 459-478): 0 for an empty cue
list, otherwise the last cue's end minus the first cue's start, clamped
at 0. -/
def calculate_duration_covered : List Cue → Int
  | [] => 0
  | c :: rest =>
    let last := (c :: rest).getLast (List.cons_ne_nil c rest)
    let e := last.start + last.duration - c.start
    if e ≤ 0 then 0 else e

/-- The result dict built on a successful fetch (lines 300-310 and
434-444): text, word count and duration covered are all computed from
the fetched cues. -/
def mkRecord (vid lang : List Char) (gen transl : Bool) (cues : List Cue)
    (now : Int) (note : Option (List Char)) : TranscriptRecord :=
  let text := format_transcript cues
  { video_id := vid
    language := lang
    is_generated := gen
    is_translatable := transl
    text := text
    raw_data := cues.take 100
    word_count := if text = [] then 0 else (pySplit text).length
    duration_covered := calculate_duration_covered cues
    fetch_timestamp := now
    note := note }

/-- The fields-are-derived property of a record: all of `text`,
`raw_data`, `word_count` and `duration_covered` come from one cue list
(and the word count is recomputed from the stored text). -/
def derivedFields (r : TranscriptRecord) : Prop :=
  ∃ cues : List Cue,
    r.text = format_transcript cues ∧
    r.raw_data = cues.take 100 ∧
    r.word_count = (pySplit r.text).length ∧
    r.duration_covered = calculate_duration_covered cues

/-! ## Language resolution (the three passes of `_attempt_transcript_fetch`) -/

/-- Pass 1 (lines 245-251): for each preferred code in order, the first
successful per-language lookup wins; the reported language is the
preferred code itself. -/
def pass1Lookup (lookup : List Char → Option Track) :
    List (List Char) → Option (Track × List Char)
  | [] => none
  | c :: rest =>
    match lookup c with
    | some t => some (t, c)
    | none => pass1Lookup lookup rest

/-- The inner search of pass 2 (lines 259-266): for each preferred code
in order, the first generated track whose code has that preferred code
as a prefix. -/
def findGenPref (gen : List Track) : List (List Char) → Option Track
  | [] => none
  | c :: rest =>
    match gen.find? (fun t => isPrefixB c t.language_code) with
    | some t => some t
    | none => findGenPref gen rest

/-- The track-choice logic of `_attempt_transcript_fetch`
(lines 244-288), translated with the source's control flow: pass 1,
then pass 2 guarded by a non-empty generated list with its
first-generated fallback, then pass 3 over the full listing. -/
def chooseTrack (env : ServiceEnv) (codes : List (List Char)) :
    Option (Track × List Char) :=
  match pass1Lookup env.lookup codes with
  | some r => some r
  | none =>
    let generated := env.listing.filter (fun t => t.is_generated)
    let fromGen : Option Track :=
      if generated.isEmpty then none
      else
        match findGenPref generated codes with
        | some t => some t
        | none => generated.head?
    match fromGen with
    | some t => some (t, t.language_code)
    | none =>
      match env.listing.head? with
      | some t => some (t, t.language_code)
      | none => none

/-- Pass 1 as the specification words it: query the lookup for each
preferred code in order, first success wins. -/
def specPass1 (lookup : List Char → Option Track) :
    List (List Char) → Option (Track × List Char)
  | [] => none
  | c :: rest =>
    match lookup c with
    | some t => some (t, c)
    | none => specPass1 lookup rest

/-- Pass 2's prefix scan as the specification words it. -/
def specGenMatch (gen : List Track) : List (List Char) → Option Track
  | [] => none
  | c :: rest =>
    match gen.find? (fun t => isPrefixB c t.language_code) with
    | some t => some t
    | none => specGenMatch gen rest

/-- The three-pass algorithm exactly as the specification states it:
pass 1; else the prefix scan over generated tracks, falling back to the
first generated track in listing order; else the first track of the
full listing. -/
def chooseTrackSpec (env : ServiceEnv) (codes : List (List Char)) :
    Option (Track × List Char) :=
  match specPass1 env.lookup codes with
  | some r => some r
  | none =>
    let gen := env.listing.filter (fun t => t.is_generated)
    match specGenMatch gen codes with
    | some t => some (t, t.language_code)
    | none =>
      match gen.head? with
      | some t => some (t, t.language_code)
      | none =>
        match env.listing.head? with
        | some t => some (t, t.language_code)
        | none => none

/-! ## Single fetch attempt and the retry loop -/

/-- What one call of `_attempt_transcript_fetch` does: return a record,
return `None` (empty cue data, line 293-295), or raise. -/
inductive AttemptResult where
  | success (r : TranscriptRecord)
  | returnedNone
  | raised (e : ApiError)
  deriving DecidableEq

/-- One call of `_attempt_transcript_fetch` (lines 224-319) against a
service environment, also counting how often the cue fetch was
invoked. -/
def attempt_transcript_fetch (env : ServiceEnv) (vid : List Char)
    (codes : List (List Char)) (now : Int) : AttemptResult × Nat :=
  match env.listingErr with
  | some e => (.raised e, 0)
  | none =>
    match chooseTrack env codes with
    | none => (.raised .noTranscriptFound, 0)
    | some (t, lang) =>
      match env.fetch t with
      | .error e => (.raised e, 1)
      | .ok [] => (.returnedNone, 1)
      | .ok (c :: cs) =>
        (.success (mkRecord vid lang t.is_generated t.is_translatable (c :: cs) now none), 1)

/-- The observable outcome of a `get_transcript` call: the returned
value plus the trace of attempts made, backoff delays slept (in
seconds) and cue-fetch invocations. -/
structure RunResult where
  result : Option TranscriptRecord
  attempts : Nat
  delays : List Nat
  fetchCalls : Nat
  deriving DecidableEq

/-- The retry loop of `get_transcript` (lines 179-222): fuel counts the
remaining attempts of the `range(max_retries)` loop, `a` is the current
0-based attempt index.  Rate limits wait `base * 2^a * 2`; request
failures and unclassified errors wait `base * 2^a`; permanent errors
and returned values stop immediately; the wait only happens when another
attempt remains. -/
def getLoop (envs : Nat → ServiceEnv) (vid : List Char)
    (codes : List (List Char)) (now : Int) : Nat → Nat → RunResult
  | 0, _ => ⟨none, 0, [], 0⟩
  | fuel + 1, a =>
    let fc := (attempt_transcript_fetch (envs a) vid codes now).2
    let rest := getLoop envs vid codes now fuel (a + 1)
    match (attempt_transcript_fetch (envs a) vid codes now).1 with
    | .success r => ⟨some r, 1, [], fc⟩
    | .returnedNone => ⟨none, 1, [], fc⟩
    | .raised .tooManyRequests =>
      if fuel > 0 then
        ⟨rest.result, rest.attempts + 1, 1 * 2 ^ a * 2 :: rest.delays, fc + rest.fetchCalls⟩
      else ⟨none, 1, [], fc⟩
    | .raised .transcriptsDisabled => ⟨none, 1, [], fc⟩
    | .raised .noTranscriptFound => ⟨none, 1, [], fc⟩
    | .raised .videoUnavailable => ⟨none, 1, [], fc⟩
    | .raised .requestFailed =>
      if fuel > 0 then
        ⟨rest.result, rest.attempts + 1, 1 * 2 ^ a :: rest.delays, fc + rest.fetchCalls⟩
      else ⟨none, 1, [], fc⟩
    | .raised .other =>
      if fuel > 0 then
        ⟨rest.result, rest.attempts + 1, 1 * 2 ^ a :: rest.delays, fc + rest.fetchCalls⟩
      else ⟨none, 1, [], fc⟩

/-- Whether an error belongs to the transient (retried) classes. -/
def isTransientErr : ApiError → Bool
  | .tooManyRequests => true
  | .requestFailed => true
  | .other => true
  | _ => false

/-- The expanded default language preference list (lines 163-171). -/
def default_language_codes : List (List Char) :=
  ["en", "en-US", "en-GB", "en-CA", "en-AU",
   "es", "fr", "de", "pt", "it", "ja", "ko", "zh", "ru",
   "es-ES", "es-MX", "pt-BR", "fr-CA", "zh-CN", "zh-TW"].map String.data

/-- `get_transcript` (lines 137-222): guards for a disabled scout and an
empty or unresolvable video id, the default language list, then the
3-attempt retry loop.  The service of attempt `a` is `envs a`. -/
def get_transcript (enabled : Bool) (envs : Nat → ServiceEnv)
    (video_input : List Char) (language_codes : Option (List (List Char)))
    (now : Int) : RunResult :=
  if enabled = false then ⟨none, 0, [], 0⟩
  else if video_input = [] then ⟨none, 0, [], 0⟩
  else
    match extract_video_id video_input with
    | none => ⟨none, 0, [], 0⟩
    | some vid =>
      let codes := language_codes.getD default_language_codes
      getLoop envs vid codes now 3 0

/-! ## Any-language entry point and health check -/

/-- The note attached by `get_transcript_any_language`. -/
def fallbackNote : List Char := "Fallback language - not in preferred list".data

/-- The candidate loop of `get_transcript_any_language` (lines 428-452):
fetch each candidate; on an exception or empty cue data move on to the
next candidate; on non-empty data build and return the record. -/
def anyLangLoop (env : ServiceEnv) (vid : List Char) (now : Int) :
    List Track → Option TranscriptRecord
  | [] => none
  | t :: rest =>
    match env.fetch t with
    | .error _ => anyLangLoop env vid now rest
    | .ok [] => anyLangLoop env vid now rest
    | .ok (c :: cs) =>
      some (mkRecord vid t.language_code t.is_generated t.is_translatable (c :: cs) now
        (some fallbackNote))

/-- `get_transcript_any_language` (lines 401-457): guard for a disabled
scout, list the tracks (a listing failure yields `None`), then try the
generated tracks first and the manual tracks after them. -/
def get_transcript_any_language (enabled : Bool) (env : ServiceEnv)
    (vid : List Char) (now : Int) : Option TranscriptRecord :=
  if enabled = false then none
  else
    match env.listingErr with
    | some _ => none
    | none =>
      if env.listing.isEmpty then none
      else
        anyLangLoop env vid now
          (env.listing.filter (fun t => t.is_generated) ++
           env.listing.filter (fun t => t.is_generated = false))

/-- A value of the health-check dict. -/
inductive HealthVal where
  | b (v : Bool)
  | num (v : Int)
  deriving DecidableEq

/-- `health_check` (lines 515-527): the dict literally returned, with
its four keys in source order. -/
def health_check (enabled api_available formatter_available : Bool)
    (now : Int) : List (List Char × HealthVal) :=
  [("enabled".data, .b enabled),
   ("api_available".data, .b api_available),
   ("formatter_available".data, .b formatter_available),
   ("timestamp".data, .num now)]

/-- Python dict key lookup on the association-list model. -/
def dictLookup (d : List (List Char × HealthVal)) (k : List Char) :
    Option HealthVal :=
  (d.find? (fun p => p.1 == k)).map (fun p => p.2)

/-! ## Concrete instances used by the witnesses -/

/-- A manual/generated English track. -/
def trackEx : Track := ⟨"English".data, "en".data, true, true⟩

/-- A generated track in a language matching no preferred code. -/
def trackXx : Track := ⟨"Xxish".data, "xx".data, true, false⟩

/-- A sample cue. -/
def cueEx : Cue := ⟨"hello world".data, 1, 2⟩

/-- A sample cue for the duration-covered witness. -/
def cueW : Cue := ⟨"hi".data, 5, 3⟩

/-- A service with an empty track listing. -/
def envEmpty : ServiceEnv where
  listingErr := none
  listing := []
  lookup := fun _ => none
  lookup_mem := by intro c t h; simp at h
  fetch := fun _ => .ok []

/-- A healthy service: one track, a working lookup for `en`, and a
non-empty cue fetch. -/
def envOK : ServiceEnv where
  listingErr := none
  listing := [trackEx]
  lookup := fun c => if c = "en".data then some trackEx else none
  lookup_mem := by
    intro c t h
    dsimp only at h
    by_cases hc : c = "en".data
    · rw [if_pos hc] at h
      injection h with h1
      rw [← h1]
      exact List.mem_cons_self _ _
    · rw [if_neg hc] at h
      exact absurd h (by simp)
  fetch := fun _ => .ok [cueEx]

/-- A service whose listing call is rate limited. -/
def envRate : ServiceEnv where
  listingErr := some .tooManyRequests
  listing := []
  lookup := fun _ => none
  lookup_mem := by intro c t h; simp at h
  fetch := fun _ => .ok []

/-- A service whose chosen track fetches an empty cue list. -/
def envEmptyCues : ServiceEnv where
  listingErr := none
  listing := [trackXx]
  lookup := fun _ => none
  lookup_mem := by intro c t h; simp at h
  fetch := fun _ => .ok []

/-- Rate limited on the first three attempts, healthy afterwards. -/
def envsEx : Nat → ServiceEnv := fun a => if a ≤ 2 then envRate else envOK

/-- The video metadata for the category counterexample: its category
contains both a high-likelihood keyword and a low-likelihood keyword. -/
def vEx : VideoData := ⟨[], "music news".data, 0⟩

/-- The record produced by a successful run against `envOK`. -/
def recEx : TranscriptRecord :=
  mkRecord ("abcdefghijk".data) ("en".data) true true [cueEx] 0 none

/-- The preferred-code list of the three-pass witness. -/
def codesEx : List (List Char) := ["en".data]

/-! ## Helper lemmas -/

theorem mkRecord_derivedFields (vid lang : List Char) (gen transl : Bool)
    (cues : List Cue) (now : Int) (note : Option (List Char)) :
    derivedFields (mkRecord vid lang gen transl cues now note) := by
  refine ⟨cues, rfl, rfl, ?_, rfl⟩
  show (if format_transcript cues = [] then 0 else (pySplit (format_transcript cues)).length)
      = (pySplit (format_transcript cues)).length
  split
  · rename_i h
    rw [h]
    rfl
  · rfl

theorem getLoop_stop (envs : Nat → ServiceEnv) (vid : List Char)
    (codes : List (List Char)) (now : Int) (n a : Nat) (r : TranscriptRecord)
    (hA : (attempt_transcript_fetch (envs a) vid codes now).1 = .success r) :
    getLoop envs vid codes now (n + 1) a =
      ⟨some r, 1, [], (attempt_transcript_fetch (envs a) vid codes now).2⟩ := by
  simp only [getLoop, hA]

theorem getLoop_returnedNone (envs : Nat → ServiceEnv) (vid : List Char)
    (codes : List (List Char)) (now : Int) (n a : Nat)
    (hA : (attempt_transcript_fetch (envs a) vid codes now).1 = .returnedNone) :
    getLoop envs vid codes now (n + 1) a =
      ⟨none, 1, [], (attempt_transcript_fetch (envs a) vid codes now).2⟩ := by
  simp only [getLoop, hA]

theorem getLoop_raised_stop (envs : Nat → ServiceEnv) (vid : List Char)
    (codes : List (List Char)) (now : Int) (n a : Nat) (e : ApiError)
    (hA : (attempt_transcript_fetch (envs a) vid codes now).1 = .raised e)
    (h : isTransientErr e = false ∨ n = 0) :
    getLoop envs vid codes now (n + 1) a =
      ⟨none, 1, [], (attempt_transcript_fetch (envs a) vid codes now).2⟩ := by
  cases e <;> rcases h with h | h <;> simp_all [getLoop, isTransientErr]

theorem getLoop_raised_transient (envs : Nat → ServiceEnv) (vid : List Char)
    (codes : List (List Char)) (now : Int) (n a : Nat) (e : ApiError)
    (hA : (attempt_transcript_fetch (envs a) vid codes now).1 = .raised e)
    (ht : isTransientErr e = true) (hn : 0 < n) :
    getLoop envs vid codes now (n + 1) a =
      ⟨(getLoop envs vid codes now n (a + 1)).result,
       (getLoop envs vid codes now n (a + 1)).attempts + 1,
       (if e = ApiError.tooManyRequests then 1 * 2 ^ a * 2 else 1 * 2 ^ a) ::
         (getLoop envs vid codes now n (a + 1)).delays,
       (attempt_transcript_fetch (envs a) vid codes now).2 +
         (getLoop envs vid codes now n (a + 1)).fetchCalls⟩ := by
  cases e <;> simp_all [getLoop, isTransientErr]

theorem getLoop_attempts_le (envs : Nat → ServiceEnv) (vid : List Char)
    (codes : List (List Char)) (now : Int) :
    ∀ fuel a, (getLoop envs vid codes now fuel a).attempts ≤ fuel := by
  intro fuel
  induction fuel with
  | zero => intro a; exact Nat.le_refl 0
  | succ n ih =>
    intro a
    cases hA : (attempt_transcript_fetch (envs a) vid codes now).1 with
    | success r =>
      rw [getLoop_stop envs vid codes now n a r hA]
      exact Nat.succ_le_succ (Nat.zero_le n)
    | returnedNone =>
      rw [getLoop_returnedNone envs vid codes now n a hA]
      exact Nat.succ_le_succ (Nat.zero_le n)
    | raised e =>
      by_cases ht : isTransientErr e = true
      · by_cases hn : 0 < n
        · rw [getLoop_raised_transient envs vid codes now n a e hA ht hn]
          exact Nat.succ_le_succ (ih (a + 1))
        · rw [getLoop_raised_stop envs vid codes now n a e hA (Or.inr (by omega))]
          exact Nat.succ_le_succ (Nat.zero_le n)
      · rw [getLoop_raised_stop envs vid codes now n a e hA
            (Or.inl (by simpa using ht))]
        exact Nat.succ_le_succ (Nat.zero_le n)

theorem getLoop_delays (envs : Nat → ServiceEnv) (vid : List Char)
    (codes : List (List Char)) (now : Int) :
    ∀ fuel a0 a, a + 1 < (getLoop envs vid codes now fuel a0).attempts →
      ∃ e, (attempt_transcript_fetch (envs (a0 + a)) vid codes now).1 = .raised e ∧
        isTransientErr e = true ∧
        (getLoop envs vid codes now fuel a0).delays.get? a =
          some (if e = ApiError.tooManyRequests then 1 * 2 ^ (a0 + a) * 2
                else 1 * 2 ^ (a0 + a)) := by
  intro fuel
  induction fuel with
  | zero => intro a0 a h; simp [getLoop] at h
  | succ n ih =>
    intro a0 a h
    cases hA : (attempt_transcript_fetch (envs a0) vid codes now).1 with
    | success r =>
      rw [getLoop_stop envs vid codes now n a0 r hA] at h
      simp at h
    | returnedNone =>
      rw [getLoop_returnedNone envs vid codes now n a0 hA] at h
      simp at h
    | raised e =>
      by_cases ht : isTransientErr e = true
      · by_cases hn : 0 < n
        · rw [getLoop_raised_transient envs vid codes now n a0 e hA ht hn] at h ⊢
          cases a with
          | zero =>
            refine ⟨e, by rwa [Nat.add_zero], ht, ?_⟩
            simp
          | succ a' =>
            have h' : a' + 1 < (getLoop envs vid codes now n (a0 + 1)).attempts := by
              simp at h
              omega
            obtain ⟨e', he', ht', hd'⟩ := ih (a0 + 1) a' h'
            have hidx : a0 + (a' + 1) = (a0 + 1) + a' := by omega
            refine ⟨e', by rw [hidx]; exact he', ht', ?_⟩
            rw [hidx]
            simpa using hd'
        · rw [getLoop_raised_stop envs vid codes now n a0 e hA (Or.inr (by omega))] at h
          simp at h
      · rw [getLoop_raised_stop envs vid codes now n a0 e hA
            (Or.inl (by simpa using ht))] at h
        simp at h

theorem getLoop_none (envs : Nat → ServiceEnv) (vid : List Char)
    (codes : List (List Char)) (now : Int) :
    ∀ fuel a0,
      (∀ i, i < fuel →
        ∃ e, (attempt_transcript_fetch (envs (a0 + i)) vid codes now).1 = .raised e ∧
          isTransientErr e = true) →
      (getLoop envs vid codes now fuel a0).result = none := by
  intro fuel
  induction fuel with
  | zero => intro a0 _; rfl
  | succ n ih =>
    intro a0 h
    obtain ⟨e, hA, ht⟩ := h 0 (Nat.succ_pos n)
    rw [Nat.add_zero] at hA
    by_cases hn : 0 < n
    · rw [getLoop_raised_transient envs vid codes now n a0 e hA ht hn]
      exact ih (a0 + 1) (fun i hi => by
        have hh := h (i + 1) (Nat.succ_lt_succ hi)
        rwa [show a0 + (i + 1) = (a0 + 1) + i by omega] at hh)
    · rw [getLoop_raised_stop envs vid codes now n a0 e hA (Or.inr (by omega))]

theorem getLoop_some (envs : Nat → ServiceEnv) (vid : List Char)
    (codes : List (List Char)) (now : Int) :
    ∀ fuel a0 r, (getLoop envs vid codes now fuel a0).result = some r →
      ∃ b, (attempt_transcript_fetch (envs b) vid codes now).1 = .success r := by
  intro fuel
  induction fuel with
  | zero => intro a0 r h; simp [getLoop] at h
  | succ n ih =>
    intro a0 r h
    cases hA : (attempt_transcript_fetch (envs a0) vid codes now).1 with
    | success r' =>
      rw [getLoop_stop envs vid codes now n a0 r' hA] at h
      simp at h
      exact ⟨a0, by rw [hA, h]⟩
    | returnedNone =>
      rw [getLoop_returnedNone envs vid codes now n a0 hA] at h
      simp at h
    | raised e =>
      by_cases ht : isTransientErr e = true
      · by_cases hn : 0 < n
        · rw [getLoop_raised_transient envs vid codes now n a0 e hA ht hn] at h
          exact ih (a0 + 1) r h
        · rw [getLoop_raised_stop envs vid codes now n a0 e hA (Or.inr (by omega))] at h
          simp at h
      · rw [getLoop_raised_stop envs vid codes now n a0 e hA
            (Or.inl (by simpa using ht))] at h
        simp at h

theorem get_transcript_run (envs : Nat → ServiceEnv) (input : List Char)
    (mcodes : Option (List (List Char))) (now : Int) (vid : List Char)
    (hin : input ≠ []) (hvid : extract_video_id input = some vid) :
    get_transcript true envs input mcodes now =
      getLoop envs vid (mcodes.getD default_language_codes) now 3 0 := by
  unfold get_transcript
  rw [if_neg (by decide), if_neg hin, hvid]

theorem attempt_success_mkRecord (env : ServiceEnv) (vid : List Char)
    (codes : List (List Char)) (now : Int) (r : TranscriptRecord)
    (h : (attempt_transcript_fetch env vid codes now).1 = .success r) :
    ∃ lang gen transl cues, r = mkRecord vid lang gen transl cues now none := by
  unfold attempt_transcript_fetch at h
  cases he : env.listingErr with
  | some e => simp [he] at h
  | none =>
    simp only [he] at h
    cases hc : chooseTrack env codes with
    | none => simp [hc] at h
    | some tl =>
      obtain ⟨t, lang⟩ := tl
      simp only [hc] at h
      cases hf : env.fetch t with
      | error e => simp [hf] at h
      | ok cues =>
        simp only [hf] at h
        cases cues with
        | nil => simp at h
        | cons c cs =>
          simp at h
          exact ⟨lang, t.is_generated, t.is_translatable, c :: cs, h.symm⟩

theorem anyLangLoop_some (env : ServiceEnv) (vid : List Char) (now : Int) :
    ∀ cand r, anyLangLoop env vid now cand = some r →
      ∃ lang gen transl cues,
        r = mkRecord vid lang gen transl cues now (some fallbackNote) := by
  intro cand
  induction cand with
  | nil => intro r h; simp [anyLangLoop] at h
  | cons t rest ih =>
    intro r h
    unfold anyLangLoop at h
    cases hf : env.fetch t with
    | error e => simp only [hf] at h; exact ih r h
    | ok cues =>
      simp only [hf] at h
      cases cues with
      | nil => exact ih r h
      | cons c cs =>
        simp at h
        exact ⟨t.language_code, t.is_generated, t.is_translatable, c :: cs, h.symm⟩

theorem lookup_none_of_nil (env : ServiceEnv) (h : env.listing = []) :
    ∀ c, env.lookup c = none := by
  intro c
  cases hl : env.lookup c with
  | none => rfl
  | some t =>
    have hm := env.lookup_mem c t hl
    rw [h] at hm
    simp at hm

theorem pass1_none (lookup : List Char → Option Track)
    (h : ∀ c, lookup c = none) :
    ∀ codes, pass1Lookup lookup codes = none := by
  intro codes
  induction codes with
  | nil => rfl
  | cons c rest ih => simp [pass1Lookup, h c, ih]

theorem chooseTrack_nil (env : ServiceEnv) (h : env.listing = [])
    (codes : List (List Char)) : chooseTrack env codes = none := by
  unfold chooseTrack
  rw [pass1_none env.lookup (lookup_none_of_nil env h) codes]
  simp [h]

theorem pass1_eq_spec (lookup : List Char → Option Track) :
    ∀ codes, pass1Lookup lookup codes = specPass1 lookup codes := by
  intro codes
  induction codes with
  | nil => rfl
  | cons c rest ih =>
    simp only [pass1Lookup, specPass1]
    cases lookup c <;> simp [ih]

theorem findGenPref_eq_spec (gen : List Track) :
    ∀ codes, findGenPref gen codes = specGenMatch gen codes := by
  intro codes
  induction codes with
  | nil => rfl
  | cons c rest ih =>
    simp only [findGenPref, specGenMatch]
    cases gen.find? (fun t => isPrefixB c t.language_code) <;> simp [ih]

theorem specGenMatch_nil : ∀ codes, specGenMatch [] codes = none := by
  intro codes
  induction codes with
  | nil => rfl
  | cons c rest ih => simp [specGenMatch, ih]

theorem take11_spec (s v : List Char) (h : take11Charset s = some v) :
    v.length = 11 ∧ v.all charsetChar = true := by
  simp only [take11Charset] at h
  split at h
  · rename_i hc
    injection h with h1
    subst h1
    exact hc
  · exact absurd h (by simp)

theorem tryAltList_spec :
    ∀ ps s v, tryAltList ps s = some v →
      v.length = 11 ∧ v.all charsetChar = true := by
  intro ps
  induction ps with
  | nil => intro s v h; simp [tryAltList] at h
  | cons p ps ih =>
    intro s v h
    unfold tryAltList at h
    cases hp : stripPref p s with
    | none => simp only [hp] at h; exact ih s v h
    | some r =>
      simp only [hp] at h
      cases ht : take11Charset r with
      | none => simp only [ht] at h; exact ih s v h
      | some w =>
        simp only [ht] at h
        injection h with h1
        subst h1
        exact take11_spec r _ ht

theorem searchPat1_spec :
    ∀ s v, searchPat1 s = some v → v.length = 11 ∧ v.all charsetChar = true := by
  intro s
  induction s with
  | nil => intro v h; simp [searchPat1] at h
  | cons c rest ih =>
    intro v h
    unfold searchPat1 at h
    cases ha : tryAltList pat1Alts (c :: rest) with
    | some w =>
      simp only [ha] at h
      injection h with h1
      subst h1
      exact tryAltList_spec _ _ _ ha
    | none => simp only [ha] at h; exact ih v h

theorem lastVMatch_spec :
    ∀ s v, lastVMatch s = some v → v.length = 11 ∧ v.all charsetChar = true := by
  intro s
  induction s with
  | nil => intro v h; simp [lastVMatch] at h
  | cons c rest ih =>
    intro v h
    unfold lastVMatch at h
    split at h
    · simp at h
    · cases hm : lastVMatch rest with
      | some w =>
        simp only [hm] at h
        injection h with h1
        subst h1
        exact ih _ hm
      | none =>
        simp only [hm] at h
        cases hp : stripPref ['v', '='] (c :: rest) with
        | none => simp only [hp] at h; exact absurd h (by simp)
        | some r => simp only [hp] at h; exact take11_spec r v h

theorem searchPat2_spec :
    ∀ s v, searchPat2 s = some v → v.length = 11 ∧ v.all charsetChar = true := by
  intro s
  induction s with
  | nil => intro v h; simp [searchPat2] at h
  | cons c rest ih =>
    intro v h
    unfold searchPat2 at h
    cases hp : stripPref pat2Pre (c :: rest) with
    | none => simp only [hp] at h; exact ih v h
    | some r =>
      simp only [hp] at h
      cases hm : lastVMatch r with
      | some w =>
        simp only [hm] at h
        injection h with h1
        subst h1
        exact lastVMatch_spec _ _ hm
      | none => simp only [hm] at h; exact ih v h

theorem extract_length_aux :
    ∀ s v, extract_video_id s = some v → v.length = 11 := by
  intro s v h
  simp only [extract_video_id] at h
  split at h
  · exact absurd h (by simp)
  · split at h
    · rename_i hc
      injection h with h1
      subst h1
      exact hc.1
    · cases h1 : searchPat1 s with
      | some w =>
        simp only [h1] at h
        injection h with h2
        subst h2
        exact (searchPat1_spec s _ h1).1
      | none =>
        simp only [h1] at h
        cases h2 : searchPat2 s with
        | some w =>
          simp only [h2] at h
          injection h with h3
          subst h3
          exact (searchPat2_spec s _ h2).1
        | none =>
          simp only [h2] at h
          cases h3 : hostnameOf (pyUrlparse s).netloc with
          | none => simp only [h3] at h; exact absurd h (by simp)
          | some hst =>
            simp only [h3] at h
            split at h
            · cases h4 : parseQsV (pyUrlparse s).query with
              | none => simp only [h4] at h; exact absurd h (by simp)
              | some vq =>
                simp only [h4] at h
                split at h
                · rename_i hlen
                  injection h with h5
                  subst h5
                  exact hlen
                · exact absurd h (by simp)
            · split at h
              · split at h
                · rename_i hlen
                  injection h with h5
                  subst h5
                  exact hlen
                · exact absurd h (by simp)
              · exact absurd h (by simp)

/-! ## Claim theorems -/

/-- Claim C1: for every service environment and every non-empty ordered
preferred-code list, the language-resolution step of
`_attempt_transcript_fetch` chooses the track exactly as the three-pass
specification describes: pass 1 takes the first preferred code whose
per-language lookup succeeds; pass 2 (reached only when pass 1 yields
nothing) takes the first generated track prefix-matching the earliest
preferred code, falling back to the first generated track in listing
order; pass 3 (reached only when passes 1 and 2 yield nothing) takes the
first track of the full listing. -/
theorem C1_three_pass (env : ServiceEnv) (codes : List (List Char))
    (hne : codes ≠ []) :
    chooseTrack env codes = chooseTrackSpec env codes := by
  simp only [chooseTrack, chooseTrackSpec, pass1_eq_spec, findGenPref_eq_spec]
  cases specPass1 env.lookup codes with
  | some r => rfl
  | none =>
    cases hg : env.listing.filter (fun t => t.is_generated) with
    | nil => simp [specGenMatch_nil]
    | cons t ts =>
      cases specGenMatch (t :: ts) codes <;> simp

/-- Witness for C1 at a concrete environment and code list. -/
theorem C1_witness :
    codesEx ≠ [] ∧ chooseTrack envEmptyCues codesEx = chooseTrackSpec envEmptyCues codesEx :=
  ⟨by decide, C1_three_pass envEmptyCues codesEx (by decide)⟩

/-- Claim C3 (counterexample): the claim says the two category
adjustments are independent and additive, so a category matching both
keyword sets would get `+3 - 3 = 0`; on the category `music news`
(matching both sets) the code adds only `+3`. -/
theorem C3_counterexample :
    highCats.any (fun c => containsSub c (lowerStr vEx.category_name)) = true ∧
    lowCats.any (fun c => containsSub c (lowerStr vEx.category_name)) = true ∧
    potentialScore vEx = nonCategoryScore vEx + 3 ∧
    ¬potentialScore vEx = nonCategoryScore vEx + 3 + (-3) := by
  decide

set_option maxHeartbeats 1000000 in
/-- Claim C3 (amended): the category checks are an `if`/`elif` chain,
hence mutually exclusive: when the lower-cased category contains both a
high-likelihood and a low-likelihood keyword, only the `+3` adjustment
is applied (the score is the category-free score plus 3, not plus 0). -/
theorem C3_category_exclusive (v : VideoData)
    (hh : highCats.any (fun c => containsSub c (lowerStr v.category_name)) = true)
    (hl : lowCats.any (fun c => containsSub c (lowerStr v.category_name)) = true) :
    potentialScore v = nonCategoryScore v + 3 := by
  unfold potentialScore nonCategoryScore
  dsimp only
  rw [if_pos hh]
  split_ifs <;> omega

/-- Witness for C3 at the concrete both-matching category. -/
theorem C3_witness : potentialScore vEx = nonCategoryScore vEx + 3 :=
  C3_category_exclusive vEx (by decide) (by decide)

theorem ifclamp_eq_max (e : Int) : (if e ≤ 0 then 0 else e) = max 0 e := by
  rcases le_or_lt e 0 with h | h
  · rw [if_pos h, max_eq_left h]
  · rw [if_neg (not_le.mpr h), max_eq_right h.le]

theorem ifclamp_nonneg (e : Int) : 0 ≤ (if e ≤ 0 then 0 else e) := by
  split
  · exact le_refl 0
  · rename_i h
    exact le_of_lt (lt_of_not_le h)

/-- Claim C5: `_calculate_duration_covered` returns 0 on the empty cue
list, returns `max 0 (last.start + last.duration - first.start)` on a
non-empty one, and is never negative. -/
theorem C5_duration_covered (cues : List Cue) :
    (cues = [] → calculate_duration_covered cues = 0) ∧
    (∀ c0 cl, cues.head? = some c0 → cues.getLast? = some cl →
      calculate_duration_covered cues = max 0 (cl.start + cl.duration - c0.start)) ∧
    0 ≤ calculate_duration_covered cues := by
  cases cues with
  | nil =>
    refine ⟨fun _ => rfl, ?_, le_refl 0⟩
    intro c0 cl h0 _
    simp at h0
  | cons c rest =>
    refine ⟨fun h => by simp at h, ?_, ifclamp_nonneg _⟩
    intro c0 cl h0 hl
    simp only [List.head?_cons, Option.some.injEq] at h0
    rw [List.getLast?_eq_getLast (c :: rest) (List.cons_ne_nil c rest)] at hl
    simp only [Option.some.injEq] at hl
    rw [← h0, ← hl]
    exact ifclamp_eq_max _

/-- Witness for C5 on a one-cue list. -/
theorem C5_witness :
    calculate_duration_covered [cueW] = max 0 (cueW.start + cueW.duration - cueW.start) ∧
    0 ≤ calculate_duration_covered [cueW] :=
  ⟨(C5_duration_covered [cueW]).2.1 cueW cueW rfl rfl,
   (C5_duration_covered [cueW]).2.2⟩

/-- Claim C8 (counterexample): the dict returned by `health_check` has
no `service_reachable` key at all (here at a concrete call), so the
claim that it always contains that boolean field is false. -/
theorem C8_counterexample :
    dictLookup (health_check true true true 0) ("service_reachable".data) = none ∧
    dictLookup (health_check true true true 0) ("enabled".data) = some (HealthVal.b true) := by
  decide

/-- Claim C8 (amended): `health_check` always returns a record with the
boolean fields `enabled`, `api_available` and `formatter_available` and
the numeric field `timestamp`; it never contains `service_reachable`. -/
theorem C8_health_fields (e a f : Bool) (now : Int) :
    dictLookup (health_check e a f now) ("enabled".data) = some (HealthVal.b e) ∧
    dictLookup (health_check e a f now) ("api_available".data) = some (HealthVal.b a) ∧
    dictLookup (health_check e a f now) ("formatter_available".data) = some (HealthVal.b f) ∧
    dictLookup (health_check e a f now) ("timestamp".data) = some (HealthVal.num now) ∧
    dictLookup (health_check e a f now) ("service_reachable".data) = none :=
  ⟨rfl, rfl, rfl, rfl, rfl⟩

/-- Claim C2: `get_transcript` makes at most 3 attempts of
`_attempt_transcript_fetch`; every attempt `a` that is followed by a
retry raised a transient error and was followed by a backoff delay of
`1 * 2 ^ a` seconds (`1 * 2 ^ a * 2` for a rate limit); and when all
three attempts raise transient errors the call returns absence,
whatever a fourth attempt would have done. -/
theorem C2_retry_policy (envs : Nat → ServiceEnv) (input : List Char)
    (mcodes : Option (List (List Char))) (now : Int) (vid : List Char)
    (hin : input ≠ []) (hvid : extract_video_id input = some vid) :
    (get_transcript true envs input mcodes now).attempts ≤ 3 ∧
    (∀ a, a + 1 < (get_transcript true envs input mcodes now).attempts →
      ∃ e, (attempt_transcript_fetch (envs a) vid
              (mcodes.getD default_language_codes) now).1 = AttemptResult.raised e ∧
        isTransientErr e = true ∧
        (get_transcript true envs input mcodes now).delays.get? a =
          some (if e = ApiError.tooManyRequests then 1 * 2 ^ a * 2 else 1 * 2 ^ a)) ∧
    ((∀ i, i < 3 →
        ∃ e, (attempt_transcript_fetch (envs i) vid
                (mcodes.getD default_language_codes) now).1 = AttemptResult.raised e ∧
          isTransientErr e = true) →
      (get_transcript true envs input mcodes now).result = none) := by
  rw [get_transcript_run envs input mcodes now vid hin hvid]
  refine ⟨getLoop_attempts_le envs vid _ now 3 0, ?_, ?_⟩
  · intro a ha
    have h := getLoop_delays envs vid (mcodes.getD default_language_codes) now 3 0 a ha
    simpa using h
  · intro h
    exact getLoop_none envs vid (mcodes.getD default_language_codes) now 3 0
      (by intro i hi; simpa using h i hi)

/-- Witness for C2: three rate-limited attempts against a concrete
service (healthy from the fourth attempt on) return absence within the
attempt cap. -/
theorem C2_witness :
    (get_transcript true envsEx ("abcdefghijk".data) none 0).result = none ∧
    (get_transcript true envsEx ("abcdefghijk".data) none 0).attempts ≤ 3 :=
  have h := C2_retry_policy envsEx ("abcdefghijk".data) none 0 ("abcdefghijk".data)
    (by decide) (by decide)
  ⟨h.2.2 (by
      intro i hi
      refine ⟨ApiError.tooManyRequests, ?_, rfl⟩
      have he : envsEx i = envRate := by
        unfold envsEx
        rw [if_pos (by omega)]
      rw [he]
      rfl),
   h.1⟩

/-- Claim C4: every record returned by `get_transcript` or by
`get_transcript_any_language` has its `text`, `raw_data`, `word_count`
and `duration_covered` fields computed from one fetched cue sequence:
the word count is the whitespace token count of the stored text, and the
duration covered is the duration-covered calculation on those cues. -/
theorem C4_derived_fields (enabled : Bool) (envs : Nat → ServiceEnv)
    (env : ServiceEnv) (input vidAny : List Char)
    (mcodes : Option (List (List Char))) (now : Int) :
    (∀ r, (get_transcript enabled envs input mcodes now).result = some r →
      derivedFields r) ∧
    (∀ r, get_transcript_any_language enabled env vidAny now = some r →
      derivedFields r) := by
  constructor
  · intro r h
    simp only [get_transcript] at h
    split at h
    · simp at h
    · split at h
      · simp at h
      · split at h
        · simp at h
        · obtain ⟨b, hb⟩ := getLoop_some envs _ _ now 3 0 r h
          obtain ⟨lang, gen, transl, cues, hr⟩ :=
            attempt_success_mkRecord _ _ _ _ _ hb
          rw [hr]
          exact mkRecord_derivedFields _ _ _ _ _ _ _
  · intro r h
    simp only [get_transcript_any_language] at h
    split at h
    · simp at h
    · split at h
      · simp at h
      · split at h
        · simp at h
        · obtain ⟨lang, gen, transl, cues, hr⟩ := anyLangLoop_some env vidAny now _ r h
          rw [hr]
          exact mkRecord_derivedFields _ _ _ _ _ _ _

/-- Witness for C4 at a concrete successful run against `envOK`. -/
theorem C4_witness : derivedFields recEx :=
  (C4_derived_fields true (fun _ => envOK) envOK ("abcdefghijk".data)
      ("abcdefghijk".data) (some [("en".data)]) 0).1 recEx (by decide)

/-- Claim C6: with a successfully listed but empty track listing,
`get_transcript` returns absence after a single attempt, never invoking
the cue fetch and sleeping no backoff. -/
theorem C6_empty_listing (env : ServiceEnv) (input : List Char)
    (mcodes : Option (List (List Char))) (now : Int) (vid : List Char)
    (hin : input ≠ []) (hvid : extract_video_id input = some vid)
    (herr : env.listingErr = none) (hlist : env.listing = []) :
    get_transcript true (fun _ => env) input mcodes now = ⟨none, 1, [], 0⟩ := by
  have hatt : attempt_transcript_fetch env vid (mcodes.getD default_language_codes) now
      = (.raised .noTranscriptFound, 0) := by
    unfold attempt_transcript_fetch
    simp only [herr, chooseTrack_nil env hlist]
  rw [get_transcript_run (fun _ => env) input mcodes now vid hin hvid]
  have h3 : getLoop (fun _ => env) vid (mcodes.getD default_language_codes) now 3 0 =
      ⟨none, 1, [],
        (attempt_transcript_fetch env vid (mcodes.getD default_language_codes) now).2⟩ :=
    getLoop_raised_stop (fun _ => env) vid (mcodes.getD default_language_codes) now 2 0
      ApiError.noTranscriptFound (by simp only [hatt]) (Or.inl rfl)
  rw [h3, hatt]

/-- Witness for C6 at a concrete empty-listing service. -/
theorem C6_witness :
    get_transcript true (fun _ => envEmpty) ("abcdefghijk".data) none 0 = ⟨none, 1, [], 0⟩ :=
  C6_empty_listing envEmpty ("abcdefghijk".data) none 0 ("abcdefghijk".data)
    (by decide) (by decide) rfl rfl

/-- Claim C7 (counterexample): the resolver is not idempotent: the URL
`https://youtu.be/abc.defghij` resolves (through the generic URL-parse
path, which checks only length) to `abc.defghij`, but resolving that
value again fails, so `resolve (resolve x) = resolve x` does not hold on
every successful input. -/
theorem C7_counterexample :
    extract_video_id ("https://youtu.be/abc.defghij".data) = some ("abc.defghij".data) ∧
    extract_video_id ("abc.defghij".data) = none := by
  decide

/-- Claim C7 (amended): every 11-character charset string is returned
unchanged, and re-resolving a returned value yields that same value
whenever the value consists only of charset characters; a value
produced by the generic URL-parse path may contain non-charset
characters, and on such values re-resolution can fail. -/
theorem C7_resolver_idempotent :
    (∀ s : List Char, s.length = 11 → s.all charsetChar = true →
      extract_video_id s = some s) ∧
    (∀ x y : List Char, extract_video_id x = some y → y.all charsetChar = true →
      extract_video_id y = some y) := by
  have base : ∀ s : List Char, s.length = 11 → s.all charsetChar = true →
      extract_video_id s = some s := by
    intro s hlen hch
    have hne : s ≠ [] := by
      intro hnil
      rw [hnil] at hlen
      simp at hlen
    have hre : reFullCharsetMatch s = true := by
      unfold reFullCharsetMatch
      have hie : s.isEmpty = false := by
        cases s with
        | nil => exact absurd rfl hne
        | cons a l => rfl
      rw [hie, hch]
      simp
    unfold extract_video_id
    rw [if_neg hne, if_pos ⟨hlen, hre⟩]
  refine ⟨base, ?_⟩
  intro x y hx hch
  exact base y (extract_length_aux x y hx) hch

/-- Witness for C7 on a concrete charset video id. -/
theorem C7_witness :
    extract_video_id ("abcdefghijk".data) = some ("abcdefghijk".data) :=
  C7_resolver_idempotent.1 ("abcdefghijk".data) (by decide) (by decide)

/-- Claim C9: when the chosen track's cue fetch succeeds with an empty
cue sequence, `get_transcript` returns absence immediately: one
attempt, no backoff, no record, with the single cue fetch counted. -/
theorem C9_empty_cues (env : ServiceEnv) (input : List Char)
    (mcodes : Option (List (List Char))) (now : Int) (vid : List Char)
    (t : Track) (lang : List Char)
    (hin : input ≠ []) (hvid : extract_video_id input = some vid)
    (herr : env.listingErr = none)
    (hchoose : chooseTrack env (mcodes.getD default_language_codes) = some (t, lang))
    (hfetch : env.fetch t = .ok []) :
    get_transcript true (fun _ => env) input mcodes now = ⟨none, 1, [], 1⟩ := by
  have hatt : attempt_transcript_fetch env vid (mcodes.getD default_language_codes) now
      = (.returnedNone, 1) := by
    unfold attempt_transcript_fetch
    simp only [herr, hchoose, hfetch]
  rw [get_transcript_run (fun _ => env) input mcodes now vid hin hvid]
  have h3 : getLoop (fun _ => env) vid (mcodes.getD default_language_codes) now 3 0 =
      ⟨none, 1, [],
        (attempt_transcript_fetch env vid (mcodes.getD default_language_codes) now).2⟩ :=
    getLoop_returnedNone (fun _ => env) vid (mcodes.getD default_language_codes) now 2 0
      (by simp only [hatt])
  rw [h3, hatt]

/-- Witness for C9 at a concrete service whose chosen track fetches an
empty cue list. -/
theorem C9_witness :
    get_transcript true (fun _ => envEmptyCues) ("abcdefghijk".data) none 0 =
      ⟨none, 1, [], 1⟩ :=
  C9_empty_cues envEmptyCues ("abcdefghijk".data) none 0 ("abcdefghijk".data)
    trackXx ("xx".data) (by decide) (by decide) rfl (by decide) rfl

/-- Claim C10: every value the resolver returns has exactly 11
characters, on every resolution path (the regex paths capture exactly
11 charset characters and both generic URL-parse branches guard on the
length). -/
theorem C10_result_length (s v : List Char) (h : extract_video_id s = some v) :
    v.length = 11 :=
  extract_length_aux s v h

/-- Witness for C10 on a watch-URL input resolved by the first regex. -/
theorem C10_witness :
    extract_video_id ("https://www.youtube.com/watch?v=dQw4w9WgXcQ".data) =
      some ("dQw4w9WgXcQ".data) ∧
    ("dQw4w9WgXcQ".data).length = 11 :=
  ⟨by decide,
   C10_result_length ("https://www.youtube.com/watch?v=dQw4w9WgXcQ".data)
     ("dQw4w9WgXcQ".data) (by decide)⟩
